import Mathlib

/-!
# Verification of the session-manager core (`src/session_manager.py`)

Shallow embedding of the session state model and its recording / navigation
algorithms.  A Python session is a JSON object (a dict) in which keys may be
absent, so the fields that the code guards with `in` / `.get` checks are
modelled as `Option`; functions that would raise `KeyError` on a missing key
return `none` at the corresponding point (`Option` result).  Wall-clock
timestamps (`datetime.now()`) are threaded in as explicit string parameters.
The `answers` dict (string-of-int keys, insertion ordered) is modelled as an
association list with integer keys: `str` is injective on integers, dict
assignment replaces the value of the first (unique) occurrence in place, and
a fresh key is appended at the end.
-/

/-- One evaluator response to one row (the dict stored in `session["answers"]`,
lines 89-96 / 143-150 of `session_manager.py`). -/
structure AnswerRecord where
  question : String
  user_answer : String
  correct_answer : String
  is_correct : Bool
  query_object : String
  timestamp : String
deriving DecidableEq, Repr

/-- The persisted session object (`create_empty_session`, lines 22-37).
`answers` and the three count fields may be absent in a legacy session, hence
`Option`. -/
structure Session where
  id : String
  created_at : String
  updated_at : String
  dataset : String
  split_subset : String
  total_questions : Int
  answered_count : Option Int
  correct_count : Option Int
  incorrect_count : Option Int
  answers : Option (List (Int × AnswerRecord))
  bookmarks : List Int
  current_row : Int
deriving DecidableEq, Repr

/-- `create_empty_session` (lines 22-37); `nowId`/`nowIso` stand for the two
`datetime.now()` formattings. -/
def createEmptySession (nowId nowIso : String) (dataset split_subset : String) : Session :=
  { id := nowId
    created_at := nowIso
    updated_at := nowIso
    dataset := dataset
    split_subset := split_subset
    total_questions := 0
    answered_count := some 0
    correct_count := some 0
    incorrect_count := some 0
    answers := some []
    bookmarks := []
    current_row := 0 }

/-- `save_current_session` (lines 52-57): refreshes `updated_at` and writes the
session; the written contents equal the returned value. -/
def saveCurrentSession (now : String) (s : Session) : Session :=
  { s with updated_at := now }

/-- Lookup in the `answers` dict: first (unique) binding of key `r`. -/
def lookupAnswer (m : List (Int × AnswerRecord)) (r : Int) : Option AnswerRecord :=
  match m with
  | [] => none
  | (k, v) :: rest => if k = r then some v else lookupAnswer rest r

/-- `str(row_idx) in session["answers"]` on the answers dict itself. -/
def isRowAnsweredMap (m : List (Int × AnswerRecord)) (r : Int) : Bool :=
  (lookupAnswer m r).isSome

/-- Dict assignment `answers[row_key] = v`: replace the binding in place if the
key is present, otherwise append it. -/
def insertKV (m : List (Int × AnswerRecord)) (r : Int) (v : AnswerRecord) :
    List (Int × AnswerRecord) :=
  match m with
  | [] => [(r, v)]
  | (k, w) :: rest => if k = r then (r, v) :: rest else (k, w) :: insertKV rest r v

/-- `sum(1 for a in answers.values() if a.get("is_correct"))` (line 130). -/
def countCorrectI (m : List (Int × AnswerRecord)) : Int :=
  ((m.filter fun p => p.2.is_correct).length : Int)

/-- `sum(1 for a in answers.values() if not a.get("is_correct"))` (line 132). -/
def countIncorrectI (m : List (Int × AnswerRecord)) : Int :=
  ((m.filter fun p => !p.2.is_correct).length : Int)

/-- `record_answer` (lines 75-105).  Returns `none` where Python would raise a
`KeyError` on a missing field; otherwise `some (session, persisted)` where
`persisted` says whether `save_current_session` ran. -/
def recordAnswer (now : String) (s : Session) (row_idx : Int)
    (question user_answer correct_answer : String) (is_correct : Bool)
    (query_object : String) : Option (Session × Bool) :=
  match s.answers with
  | none => none
  | some m =>
    if isRowAnsweredMap m row_idx then
      -- row already answered: nothing happens, no save
      some (s, false)
    else
      let m' := m ++ [(row_idx,
        { question := question, user_answer := user_answer,
          correct_answer := correct_answer, is_correct := is_correct,
          query_object := query_object, timestamp := now })]
      match (if is_correct then s.correct_count else s.incorrect_count) with
      | none => none
      | some c =>
        let s' :=
          if is_correct then
            { s with answers := some m', answered_count := some (m'.length : Int),
                     correct_count := some (c + 1) }
          else
            { s with answers := some m', answered_count := some (m'.length : Int),
                     incorrect_count := some (c + 1) }
        some (saveCurrentSession now s', true)

/-- Lines 122-132 of `record_answer_allow_change`: fill in `answers` and the
three count fields when absent, deriving counts from the existing answers. -/
def initLegacyFields (s : Session) : Session :=
  let s1 :=
    match s.answers with
    | none => { s with answers := some [] }
    | some _ => s
  let s2 :=
    match s1.answered_count with
    | none => { s1 with answered_count := some (((s1.answers.getD []).length : Int)) }
    | some _ => s1
  let s3 :=
    match s2.correct_count with
    | none => { s2 with correct_count := some (countCorrectI (s2.answers.getD [])) }
    | some _ => s2
  match s3.incorrect_count with
  | none => { s3 with incorrect_count := some (countIncorrectI (s3.answers.getD [])) }
  | some _ => s3

/-- `record_answer_allow_change` (lines 108-160). -/
def recordAnswerAllowChange (now : String) (s : Session) (row_idx : Int)
    (question user_answer correct_answer : String) (is_correct : Bool)
    (query_object : String) (was_answered previous_correct : Bool) : Session :=
  let s0 := initLegacyFields s
  let s1 :=
    if was_answered then
      if previous_correct then
        { s0 with correct_count := some (max 0 (s0.correct_count.getD 0 - 1)) }
      else
        { s0 with incorrect_count := some (max 0 (s0.incorrect_count.getD 0 - 1)) }
    else s0
  let m' := insertKV (s1.answers.getD []) row_idx
    { question := question, user_answer := user_answer,
      correct_answer := correct_answer, is_correct := is_correct,
      query_object := query_object, timestamp := now }
  let s2 := { s1 with answers := some m', answered_count := some (m'.length : Int) }
  let s3 :=
    if is_correct then
      { s2 with correct_count := some (s2.correct_count.getD 0 + 1) }
    else
      { s2 with incorrect_count := some (s2.incorrect_count.getD 0 + 1) }
  saveCurrentSession now s3

/-- `toggle_bookmark` (lines 163-171): `list.remove` drops the first
occurrence, `append` adds at the end. -/
def toggleBookmark (now : String) (s : Session) (row_idx : Int) : Session :=
  if row_idx ∈ s.bookmarks then
    saveCurrentSession now { s with bookmarks := s.bookmarks.erase row_idx }
  else
    saveCurrentSession now { s with bookmarks := s.bookmarks ++ [row_idx] }

/-- `is_row_answered` (lines 174-176); `none` when `answers` is absent (the
Python raises `KeyError` there). -/
def isRowAnswered (s : Session) (row_idx : Int) : Option Bool :=
  s.answers.map fun m => isRowAnsweredMap m row_idx

/-- The loop of `get_next_unanswered_row` (lines 186-193): `fuel` is the number
of remaining iterations (`total_rows - checked`); `%` is Python `%`, which for a
positive modulus agrees with `Int.emod`. -/
def searchLoop (m : List (Int × AnswerRecord)) (direction totalRows : Int) :
    Nat → Int → Option Int
  | 0, _ => none
  | Nat.succ n, idx =>
    let idx2 := (idx + direction) % totalRows
    if isRowAnsweredMap m idx2 then searchLoop m direction totalRows n idx2
    else some idx2

/-- `get_next_unanswered_row` (lines 184-196).  When `total_rows <= 0` the
`while` guard fails at once and `current_idx` is returned without `answers`
ever being read; when `total_rows > 0` the loop runs at most `total_rows`
times and a missing `answers` field would raise (`none`). -/
def getNextUnansweredRow (s : Session) (current_idx totalRows direction : Int) :
    Option Int :=
  if totalRows ≤ 0 then some current_idx
  else
    match s.answers with
    | none => none
    | some m =>
      some ((searchLoop m direction totalRows totalRows.toNat current_idx).getD current_idx)

/-- Insertion into a sorted list (ascending), used to model Python `sorted`. -/
def insertSorted (x : Int) : List Int → List Int
  | [] => [x]
  | y :: ys => if x ≤ y then x :: y :: ys else y :: insertSorted x ys

/-- `sorted` on a list of integers (ascending). -/
def sortInts (l : List Int) : List Int := l.foldr insertSorted []

/-- `get_answered_rows` (lines 284-288): sorted list of the integer keys of
`answers`; `[]` when the field is absent (the code checks this explicitly). -/
def getAnsweredRows (s : Session) : List Int :=
  match s.answers with
  | none => []
  | some m => sortInts (m.map Prod.fst)

/-- `get_next_answered_row` (lines 291-319). -/
def getNextAnsweredRow (s : Session) (current_idx : Int) (direction : Int) :
    Option Int :=
  match getAnsweredRows s with
  | [] => none
  | a :: rest =>
    if direction = 1 then
      match (a :: rest).find? (fun idx => decide (current_idx < idx)) with
      | some idx => some idx
      | none => some a
    else
      match (a :: rest).reverse.find? (fun idx => decide (idx < current_idx)) with
      | some idx => some idx
      | none => some ((a :: rest).getLast (List.cons_ne_nil a rest))

/-- The outcome of `json.load(f)` on the live-session file's contents: a
parsed session; a failure raising one of the classes line 47 catches
(`json.JSONDecodeError` or `IOError`); or a failure raising outside those
classes — e.g. `UnicodeDecodeError` when the bytes of the file do not decode
in the text encoding (invalid UTF-8), which is a `ValueError` but neither a
`JSONDecodeError` nor an `IOError`. -/
inductive ParseOutcome where
  | ok : Session → ParseOutcome
  | caughtError : String → ParseOutcome
  | uncaughtError : String → ParseOutcome

/-- The live-session file as seen by `load_current_session`: either missing,
or present with contents characterised by the outcome of `json.load`. -/
inductive LiveFile where
  | missing : LiveFile
  | content : ParseOutcome → LiveFile

/-- `load_current_session` (lines 40-49): missing file → `None`; a
`json.JSONDecodeError` / `IOError` is caught → `None`; any other exception
(e.g. `UnicodeDecodeError` on undecodable bytes) propagates to the caller,
modelled as `Except.error`. -/
def loadCurrentSession : LiveFile → Except String (Option Session)
  | LiveFile.missing => Except.ok none
  | LiveFile.content (ParseOutcome.ok s) => Except.ok (some s)
  | LiveFile.content (ParseOutcome.caughtError _) => Except.ok none
  | LiveFile.content (ParseOutcome.uncaughtError e) => Except.error e

/-- The archive directory: one entry per `session_<id>.json` file, as
`(id, parse outcome)`, in the enumeration order of the underlying storage. -/
abbrev ArchiveStore : Type := List (String × Except String Session)

/-- The stem of the archive file for `id`:  `session_<id>` (the `.json` suffix
is stripped by `Path.stem`). -/
def stemOf (id : String) : String := "session_" ++ id

/-- Does `needle` occur at the head of `hay`? -/
def leadMatch : List Char → List Char → Bool
  | [], _ => true
  | _ :: _, [] => false
  | a :: as, b :: bs => a == b && leadMatch as bs

/-- Contiguous-substring test on character lists. -/
def hasSubList (needle : List Char) : List Char → Bool
  | [] => leadMatch needle []
  | c :: t => leadMatch needle (c :: t) || hasSubList needle t

/-- Python `needle in hay` on strings: contiguous substring. -/
def strContains (needle hay : String) : Bool :=
  hasSubList needle.toList hay.toList

/-- Existence/open of the exact file `session_<query>.json` (lines 264-270):
the parse outcome stored under the id equal to `query`, if any. -/
def lookupArchive (store : ArchiveStore) (query : String) :
    Option (Except String Session) :=
  (List.find? (fun e => e.1 == query) store).map Prod.snd

/-- The glob loop of `load_session_by_id` (lines 273-279): first file whose
stem contains `query` and whose contents parse; parse failures are skipped. -/
def scanSubstr (query : String) : List (String × Except String Session) → Option Session
  | [] => none
  | (id, res) :: rest =>
    if strContains query (stemOf id) then
      match res with
      | Except.ok s => some s
      | Except.error _ => scanSubstr query rest
    else scanSubstr query rest

/-- `load_session_by_id` (lines 252-281): exact filename match first (a parse
failure there returns `None` at once); otherwise the substring scan over the
directory. -/
def loadSessionById (store : ArchiveStore) (query : String) : Option Session :=
  match lookupArchive store query with
  | some (Except.ok s) => some s
  | some (Except.error _) => none
  | none => scanSubstr query store

/-! ## Claim-side specification definitions -/

/-- The index sequence named by the skip-to-unanswered claim:
`(current + k*direction) mod total` for `k = 1, 2, ..., n`. -/
def stepSeq (current direction totalRows : Int) (n : Nat) : List Int :=
  (List.range n).map fun (k : Nat) => (current + ((k : Int) + 1) * direction) % totalRows

/-- Specification of skip-to-unanswered, following the claim's words: the
first unanswered index in the step sequence of a full cycle (`total` steps);
`none` when every step hits an answered row. -/
def specFirstUnanswered (m : List (Int × AnswerRecord))
    (current direction totalRows : Int) : Option Int :=
  (stepSeq current direction totalRows totalRows.toNat).find?
    fun i => !(isRowAnsweredMap m i)

/-! ## Concrete values for witnesses and counterexamples -/

/-- A fixed concrete session for witnesses. -/
def demoSession : Session :=
  createEmptySession "20260214_120040" "2026-02-14T12:00:40" "alfred" "train"

/-- The session produced by a first `record_answer` of row 0 on `demoSession`. -/
def demoAnswered : Session :=
  { demoSession with
      updated_at := "t1"
      answered_count := some 1
      correct_count := some 1
      answers := some [(0,
        { question := "q", user_answer := "A", correct_answer := "A",
          is_correct := true, query_object := "", timestamp := "t1" })] }

/-- A session whose bookmark list already holds a duplicate (e.g. loaded from a
hand-edited or corrupted JSON file); no field validation occurs on load. -/
def demoDupSession : Session := { demoSession with bookmarks := [5, 5] }

/-- A store holding a corrupt archive `session_abc.json` and a well-formed
`session_abcd.json` whose stem contains the query `"abc"`. -/
def demoStore : ArchiveStore :=
  [("abc", Except.error "bad json"), ("abcd", Except.ok demoSession)]

/-- A concrete answer record. -/
def demoRec (u : String) (b : Bool) : AnswerRecord :=
  { question := "q", user_answer := u, correct_answer := "A", is_correct := b,
    query_object := "", timestamp := "t0" }

/-- A session with rows 0 and 2 answered (of 3). -/
def demoNav : Session :=
  { demoSession with answers := some [(0, demoRec "A" true), (2, demoRec "B" false)] }

/-- A session with rows 0, 1 and 2 all answered. -/
def demoNavAll : Session :=
  { demoSession with
      answers := some [(0, demoRec "A" true), (1, demoRec "B" false), (2, demoRec "A" true)] }

/-- A session with rows 0, 2 and 4 answered. -/
def demoNav5 : Session :=
  { demoSession with
      answers := some [(0, demoRec "A" true), (2, demoRec "B" false), (4, demoRec "A" true)] }

/-- A legacy session: two answers already present, all count fields absent. -/
def demoLegacy : Session :=
  { demoSession with
      answers := some [(0, demoRec "A" true), (1, demoRec "B" false)]
      answered_count := none
      correct_count := none
      incorrect_count := none }

/-- The record written by both recording functions. -/
def mkRecord (now q ua ca : String) (b : Bool) (qo : String) : AnswerRecord :=
  { question := q, user_answer := ua, correct_answer := ca, is_correct := b,
    query_object := qo, timestamp := now }

/-- Whether the row is currently answered (the accurate `was_answered`
argument a caller of `record_answer_allow_change` would pass). -/
def isAnsweredB (s : Session) (r : Int) : Bool :=
  match s.answers with
  | none => false
  | some m => isRowAnsweredMap m r

/-- The stored record's `is_correct` (the accurate `previous_correct`
argument); `false` when the row is unanswered (the code then ignores it). -/
def prevCorrectOf (s : Session) (r : Int) : Bool :=
  match s.answers with
  | none => false
  | some m =>
    match lookupAnswer m r with
    | some w => w.is_correct
    | none => false

/-- The strengthened count invariant: the three counts are present and agree
with the answers dict. -/
def CountsInv (s : Session) : Prop :=
  ∃ m : List (Int × AnswerRecord),
    s.answers = some m ∧
    s.answered_count = some ((m.length : Int)) ∧
    s.correct_count = some (countCorrectI m) ∧
    s.incorrect_count = some (countIncorrectI m)

/-- Sessions reachable from `create_empty_session` through `record_answer`
and `record_answer_allow_change`, the latter called with accurate
`was_answered` / `previous_correct` arguments. -/
inductive ReachAccurate : Session → Prop where
  | created (nowId nowIso dataset split : String) :
      ReachAccurate (createEmptySession nowId nowIso dataset split)
  | recorded (s s1 : Session) (persisted : Bool) (now : String) (r : Int)
      (q ua ca qo : String) (b : Bool) :
      ReachAccurate s →
      recordAnswer now s r q ua ca b qo = some (s1, persisted) →
      ReachAccurate s1
  | changed (s : Session) (now : String) (r : Int) (q ua ca qo : String) (b : Bool) :
      ReachAccurate s →
      ReachAccurate (recordAnswerAllowChange now s r q ua ca b qo
        (isAnsweredB s r) (prevCorrectOf s r))

/-- A two-call accurate-argument chain: answer row 0, then change row 0. -/
def demoReach0 : Session := createEmptySession "d0" "d0i" "ds" "sp"

def demoReach1 : Session :=
  recordAnswerAllowChange "t1" demoReach0 0 "q" "A" "A" true ""
    (isAnsweredB demoReach0 0) (prevCorrectOf demoReach0 0)

def demoReach2 : Session :=
  recordAnswerAllowChange "t2" demoReach1 0 "q" "B" "A" false ""
    (isAnsweredB demoReach1 0) (prevCorrectOf demoReach1 0)

/-! ## Helper lemmas on the answers dict -/

theorem lookupAnswer_append_self (m : List (Int × AnswerRecord)) (r : Int) (v : AnswerRecord) :
    isRowAnsweredMap (m ++ [(r, v)]) r = true := by
  induction m with
  | nil => simp [isRowAnsweredMap, lookupAnswer]
  | cons p t ih =>
    obtain ⟨k, w⟩ := p
    by_cases h : k = r <;> simp [isRowAnsweredMap, lookupAnswer, h] at ih ⊢
    exact ih

theorem countCorrectI_append (m1 m2 : List (Int × AnswerRecord)) :
    countCorrectI (m1 ++ m2) = countCorrectI m1 + countCorrectI m2 := by
  simp [countCorrectI, List.filter_append]

theorem countIncorrectI_append (m1 m2 : List (Int × AnswerRecord)) :
    countIncorrectI (m1 ++ m2) = countIncorrectI m1 + countIncorrectI m2 := by
  simp [countIncorrectI, List.filter_append]

theorem countCorrectI_single (r : Int) (v : AnswerRecord) :
    countCorrectI [(r, v)] = if v.is_correct then 1 else 0 := by
  by_cases h : v.is_correct <;> simp [countCorrectI, List.filter, h]

theorem countIncorrectI_single (r : Int) (v : AnswerRecord) :
    countIncorrectI [(r, v)] = if v.is_correct then 0 else 1 := by
  by_cases h : v.is_correct <;> simp [countIncorrectI, List.filter, h]

theorem countCorrectI_add_countIncorrectI (m : List (Int × AnswerRecord)) :
    countCorrectI m + countIncorrectI m = (m.length : Int) := by
  induction m with
  | nil => simp [countCorrectI, countIncorrectI]
  | cons p t ih =>
    by_cases h : p.2.is_correct <;>
      simp [countCorrectI, countIncorrectI, List.filter_cons, h] at ih ⊢ <;> omega

theorem countCorrectI_nonneg (m : List (Int × AnswerRecord)) : 0 ≤ countCorrectI m := by
  simp [countCorrectI]

theorem countIncorrectI_nonneg (m : List (Int × AnswerRecord)) : 0 ≤ countIncorrectI m := by
  simp [countIncorrectI]

/-- A no-op helper: `record_answer` on an already-answered row returns the
session unchanged without persisting. -/
theorem recordAnswer_noop (now : String) (s : Session) (m : List (Int × AnswerRecord))
    (r : Int) (q ua ca : String) (b : Bool) (qo : String)
    (hm : s.answers = some m) (hans : isRowAnsweredMap m r = true) :
    recordAnswer now s r q ua ca b qo = some (s, false) := by
  simp [recordAnswer, hm, hans]

/-- A successful first-time `record_answer` appends the new record. -/
theorem recordAnswer_answers (now : String) (s : Session) (m : List (Int × AnswerRecord))
    (r : Int) (q ua ca : String) (b : Bool) (qo : String) (s1 : Session) (persisted : Bool)
    (hm : s.answers = some m) (hans : isRowAnsweredMap m r = false)
    (hcall : recordAnswer now s r q ua ca b qo = some (s1, persisted)) :
    s1.answers = some (m ++ [(r,
      { question := q, user_answer := ua, correct_answer := ca, is_correct := b,
        query_object := qo, timestamp := now })]) := by
  cases b
  case false =>
    rcases hcc : s.incorrect_count with _ | c <;>
      simp [recordAnswer, hm, hans, hcc, saveCurrentSession] at hcall
    obtain ⟨h1, -⟩ := hcall
    rw [← h1]
  case true =>
    rcases hcc : s.correct_count with _ | c <;>
      simp [recordAnswer, hm, hans, hcc, saveCurrentSession] at hcall
    obtain ⟨h1, -⟩ := hcall
    rw [← h1]

/-! ## C2: record-once is a no-op on an already-answered row -/

/-- **C2**: with `answers` present and the row already answered, `record_answer`
returns the session unmodified (record and all counts unchanged) with no
persist; consequently recording the same row twice — with any second-call
arguments, in particular a different `user_answer` — leaves the state of the
first call untouched. -/
theorem record_once_noop (now : String) (s : Session) (m : List (Int × AnswerRecord))
    (r : Int) (q ua ca : String) (b : Bool) (qo : String)
    (hm : s.answers = some m) :
    (isRowAnsweredMap m r = true → recordAnswer now s r q ua ca b qo = some (s, false)) ∧
    (∀ (s1 : Session) (persisted : Bool) (now2 q2 ua2 ca2 qo2 : String) (b2 : Bool),
      recordAnswer now s r q ua ca b qo = some (s1, persisted) →
      recordAnswer now2 s1 r q2 ua2 ca2 b2 qo2 = some (s1, false)) := by
  constructor
  · intro hans
    exact recordAnswer_noop now s m r q ua ca b qo hm hans
  · intro s1 persisted now2 q2 ua2 ca2 qo2 b2 hcall
    by_cases hans : isRowAnsweredMap m r = true
    · rw [recordAnswer_noop now s m r q ua ca b qo hm hans] at hcall
      obtain ⟨h1, _⟩ := Prod.mk.injEq .. ▸ (Option.some.injEq .. ▸ hcall)
      exact h1 ▸ recordAnswer_noop now2 s m r q2 ua2 ca2 b2 qo2 hm hans
    · have hans' := recordAnswer_answers now s m r q ua ca b qo s1 persisted hm
        (by simpa using hans) hcall
      exact recordAnswer_noop now2 s1 _ r q2 ua2 ca2 b2 qo2 hans'
        (lookupAnswer_append_self m r _)

theorem record_once_noop_witness :
    recordAnswer "t1" demoSession 0 "q" "A" "A" true "" = some (demoAnswered, true) ∧
    recordAnswer "t2" demoAnswered 0 "q" "B" "A" false "" = some (demoAnswered, false) :=
  ⟨by decide,
   (record_once_noop "t1" demoSession [] 0 "q" "A" "A" true "" rfl).2
     demoAnswered true "t2" "q" "B" "A" "" false (by decide)⟩

/-! ## C3: bookmark toggling -/

/-- **C3 counterexample**: on a session whose bookmark list contains the row
twice, toggling twice removes both copies — the resulting bookmark set differs
from the original, so double-toggle is not the identity on every session. -/
theorem toggle_bookmark_involution_cex :
    5 ∈ demoDupSession.bookmarks ∧
    5 ∉ (toggleBookmark "t2" (toggleBookmark "t1" demoDupSession 5) 5).bookmarks := by
  decide

/-- **C3 (amended)**: on every session whose bookmark list is duplicate-free —
which holds for every session built by toggle histories, since a toggle
preserves duplicate-freedom — toggling a row twice yields the same bookmark
set, and a single toggle cannot introduce a duplicate. -/
theorem toggleBookmark_bookmarks (now : String) (s : Session) (r : Int) :
    (toggleBookmark now s r).bookmarks =
      if r ∈ s.bookmarks then s.bookmarks.erase r else s.bookmarks ++ [r] := by
  by_cases h : r ∈ s.bookmarks <;> simp [toggleBookmark, saveCurrentSession, h]

theorem toggle_bookmark_involution (now now2 : String) (s : Session) (r : Int)
    (hnd : s.bookmarks.Nodup) :
    (∀ x : Int,
      x ∈ (toggleBookmark now2 (toggleBookmark now s r) r).bookmarks ↔ x ∈ s.bookmarks) ∧
    (toggleBookmark now s r).bookmarks.Nodup := by
  by_cases h : r ∈ s.bookmarks
  · have hb1 : (toggleBookmark now s r).bookmarks = s.bookmarks.erase r := by
      rw [toggleBookmark_bookmarks, if_pos h]
    have hr2 : r ∉ (toggleBookmark now s r).bookmarks := by
      rw [hb1]; exact hnd.not_mem_erase
    have hb2 : (toggleBookmark now2 (toggleBookmark now s r) r).bookmarks
        = s.bookmarks.erase r ++ [r] := by
      rw [toggleBookmark_bookmarks, if_neg hr2, hb1]
    refine ⟨fun x => ?_, by rw [hb1]; exact hnd.erase r⟩
    rw [hb2]
    by_cases hx : x = r
    · subst hx; simp [h]
    · simp [List.mem_append, hnd.mem_erase_iff, hx]
  · have hb1 : (toggleBookmark now s r).bookmarks = s.bookmarks ++ [r] := by
      rw [toggleBookmark_bookmarks, if_neg h]
    have hr2 : r ∈ (toggleBookmark now s r).bookmarks := by rw [hb1]; simp
    have hb2 : (toggleBookmark now2 (toggleBookmark now s r) r).bookmarks
        = (s.bookmarks ++ [r]).erase r := by
      rw [toggleBookmark_bookmarks, if_pos hr2, hb1]
    have he : (s.bookmarks ++ [r]).erase r = s.bookmarks := by
      rw [List.erase_append_right _ h]; simp
    refine ⟨fun x => by rw [hb2, he], ?_⟩
    rw [hb1]
    simp [List.nodup_append, hnd, h]

theorem toggle_bookmark_involution_witness :
    (∀ x : Int,
      x ∈ (toggleBookmark "t2" (toggleBookmark "t1" demoSession 7) 7).bookmarks
        ↔ x ∈ demoSession.bookmarks) ∧
    (toggleBookmark "t1" demoSession 7).bookmarks.Nodup :=
  toggle_bookmark_involution "t1" "t2" demoSession 7 (by decide)

/-! ## C6: loading the live session and the uncaught-exception path -/

/-- **C6 (code bug)**: `load_current_session` returns absence for a missing
file and for content whose `json.load` failure is one of the two caught
classes (`json.JSONDecodeError`, `IOError`), but content whose read fails
outside those classes — e.g. invalid UTF-8 bytes raising
`UnicodeDecodeError` — makes the exception escape (`Except.error`) instead of
absence being returned, contrary to the claim's "never raises" for every
malformed content. -/
theorem load_current_behavior :
    loadCurrentSession LiveFile.missing = Except.ok none ∧
    (∀ e : String,
      loadCurrentSession (LiveFile.content (ParseOutcome.caughtError e)) = Except.ok none) ∧
    (∀ s : Session,
      loadCurrentSession (LiveFile.content (ParseOutcome.ok s)) = Except.ok (some s)) ∧
    (∀ e : String,
      loadCurrentSession (LiveFile.content (ParseOutcome.uncaughtError e)) = Except.error e) :=
  ⟨rfl, fun _ => rfl, fun _ => rfl, fun _ => rfl⟩

/-! ## C10: a corrupt exact-match archive masks substring matches -/

/-- **C10**: when the archive stored under an id equal to the query exists but
is malformed, `load_session_by_id` returns `None` at once and never reaches
the substring scan, whatever the rest of the store holds. -/
theorem corrupt_exact_match_masks (store : ArchiveStore) (q e : String)
    (h : lookupArchive store q = some (Except.error e)) :
    loadSessionById store q = none := by
  unfold loadSessionById
  rw [h]

theorem corrupt_exact_match_masks_witness :
    loadSessionById demoStore "abc" = none ∧ strContains "abc" (stemOf "abcd") = true :=
  ⟨corrupt_exact_match_masks demoStore "abc" "bad json" rfl, by decide⟩

/-! ## C4 / C9: skip-to-unanswered navigation -/

theorem searchLoop_eq_find (m : List (Int × AnswerRecord)) (d t : Int) :
    ∀ (n : Nat) (idx : Int),
      searchLoop m d t n idx
        = (stepSeq idx d t n).find? (fun i => !(isRowAnsweredMap m i)) := by
  intro n
  induction n with
  | zero => intro idx; simp [searchLoop, stepSeq]
  | succ n ih =>
    intro idx
    have hseq : stepSeq idx d t (n + 1)
        = ((idx + d) % t) :: stepSeq ((idx + d) % t) d t n := by
      unfold stepSeq
      rw [List.range_succ_eq_map]
      simp only [List.map_cons, List.map_map]
      refine congrArg₂ List.cons ?_ ?_
      · push_cast
        ring_nf
      · refine List.map_congr_left fun k _ => ?_
        show (idx + (((Nat.succ k : Nat) : Int) + 1) * d) % t
            = ((idx + d) % t + ((k : Int) + 1) * d) % t
        rw [Int.emod_add_emod]
        congr 1
        push_cast
        ring
    rw [hseq]
    have hunfold : searchLoop m d t (n + 1) idx
        = (if isRowAnsweredMap m ((idx + d) % t) then
            searchLoop m d t n ((idx + d) % t) else some ((idx + d) % t)) := rfl
    rw [hunfold]
    by_cases h : isRowAnsweredMap m ((idx + d) % t)
    · rw [if_pos h, List.find?_cons_of_neg _ (by simp [h])]
      exact ih _
    · rw [if_neg h, List.find?_cons_of_pos _ (by simp [h])]

theorem getNextUnansweredRow_eq (s : Session) (m : List (Int × AnswerRecord))
    (current t d : Int) (hm : s.answers = some m) (ht : 0 < t) :
    getNextUnansweredRow s current t d
      = some ((specFirstUnanswered m current d t).getD current) := by
  unfold getNextUnansweredRow specFirstUnanswered
  rw [if_neg (by omega), hm]
  show some ((searchLoop m d t t.toNat current).getD current) = _
  rw [searchLoop_eq_find]

/-- **C4**: with `answers` present, a positive row count, `current` in range
and `direction = ±1`, `get_next_unanswered_row` returns exactly the first
unanswered index of the sequence `(current + k*direction) mod total`,
`k = 1..total`, falling back to `current` when the full cycle finds only
answered rows. -/
theorem next_unanswered_first_in_sequence (s : Session) (m : List (Int × AnswerRecord))
    (current t d : Int) (hm : s.answers = some m) (ht : 0 < t)
    (_hcur : 0 ≤ current ∧ current < t) (_hd : d = 1 ∨ d = -1) :
    getNextUnansweredRow s current t d
      = some ((specFirstUnanswered m current d t).getD current) :=
  getNextUnansweredRow_eq s m current t d hm ht

theorem next_unanswered_first_in_sequence_witness :
    getNextUnansweredRow demoNav 0 3 1 = some 1 ∧
    getNextUnansweredRow demoNavAll 1 3 1 = some 1 := by
  constructor
  · rw [next_unanswered_first_in_sequence demoNav _ 0 3 1 rfl (by decide)
      ⟨by decide, by decide⟩ (Or.inl rfl)]
    decide
  · rw [next_unanswered_first_in_sequence demoNavAll _ 1 3 1 rfl (by decide)
      ⟨by decide, by decide⟩ (Or.inl rfl)]
    decide

/-- **C9**: with `answers` present (a session per the data model),
`get_next_unanswered_row` is total and range-safe: for `total_rows <= 0` the
loop never runs and `current_idx` comes back unchanged (no modulus is taken);
otherwise the result is an unanswered index in `[0, total_rows)` or
`current_idx` itself. -/
theorem next_unanswered_total_safe (s : Session) (m : List (Int × AnswerRecord))
    (current t d : Int) (hm : s.answers = some m) :
    ∃ r, getNextUnansweredRow s current t d = some r ∧
      (t ≤ 0 → r = current) ∧
      (r = current ∨ (0 ≤ r ∧ r < t ∧ isRowAnsweredMap m r = false)) := by
  by_cases ht : t ≤ 0
  · exact ⟨current, by simp [getNextUnansweredRow, ht], fun _ => rfl, Or.inl rfl⟩
  · push_neg at ht
    rw [getNextUnansweredRow_eq s m current t d hm ht]
    rcases hfind : specFirstUnanswered m current d t with _ | r
    · exact ⟨current, by simp, fun h => absurd ht (by omega), Or.inl rfl⟩
    · refine ⟨r, by simp, fun h => absurd ht (by omega), Or.inr ?_⟩
      unfold specFirstUnanswered at hfind
      have h1 : r ∈ stepSeq current d t t.toNat := List.mem_of_find?_eq_some hfind
      have h2 := List.find?_some hfind
      unfold stepSeq at h1
      obtain ⟨k, -, hk⟩ := List.mem_map.mp h1
      refine ⟨?_, ?_, by simpa using h2⟩
      · rw [← hk]; exact Int.emod_nonneg _ (by omega)
      · rw [← hk]; exact Int.emod_lt_of_pos _ ht

theorem next_unanswered_total_safe_witness :
    ∃ r, getNextUnansweredRow demoNav 7 0 1 = some r ∧
      ((0 : Int) ≤ 0 → r = 7) ∧
      (r = 7 ∨ (0 ≤ r ∧ r < 0 ∧ isRowAnsweredMap [(0, demoRec "A" true), (2, demoRec "B" false)] r = false)) :=
  next_unanswered_total_safe demoNav _ 7 0 1 rfl

/-! ## C5: jump-to-answered navigation -/

theorem mem_insertSorted (x a : Int) (l : List Int) :
    a ∈ insertSorted x l ↔ a = x ∨ a ∈ l := by
  induction l with
  | nil => simp [insertSorted]
  | cons y ys ih =>
    by_cases h : x ≤ y <;> simp [insertSorted, h, ih]
    all_goals tauto

theorem sorted_insertSorted (x : Int) (l : List Int) (h : l.Sorted (· ≤ ·)) :
    (insertSorted x l).Sorted (· ≤ ·) := by
  induction l with
  | nil => simp [insertSorted]
  | cons y ys ih =>
    rw [List.sorted_cons] at h
    obtain ⟨hy, hys⟩ := h
    by_cases hxy : x ≤ y
    · rw [insertSorted, if_pos hxy, List.sorted_cons]
      refine ⟨?_, by rw [List.sorted_cons]; exact ⟨hy, hys⟩⟩
      intro b hb
      rcases List.mem_cons.mp hb with rfl | hb'
      · exact hxy
      · exact le_trans hxy (hy b hb')
    · rw [insertSorted, if_neg hxy, List.sorted_cons]
      refine ⟨?_, ih hys⟩
      intro b hb
      rcases (mem_insertSorted x b ys).mp hb with rfl | hb'
      · omega
      · exact hy b hb'

theorem mem_sortInts (a : Int) (l : List Int) : a ∈ sortInts l ↔ a ∈ l := by
  induction l with
  | nil => simp [sortInts]
  | cons x xs ih =>
    show a ∈ insertSorted x (sortInts xs) ↔ _
    rw [mem_insertSorted, ih]
    simp

theorem sorted_sortInts (l : List Int) : (sortInts l).Sorted (· ≤ ·) := by
  induction l with
  | nil => simp [sortInts]
  | cons x xs ih => exact sorted_insertSorted x (sortInts xs) ih

theorem getAnsweredRows_sorted (s : Session) : (getAnsweredRows s).Sorted (· ≤ ·) := by
  unfold getAnsweredRows
  cases s.answers with
  | none => simp
  | some m => exact sorted_sortInts _

theorem mem_keys_iff_answered (m : List (Int × AnswerRecord)) (x : Int) :
    x ∈ m.map Prod.fst ↔ isRowAnsweredMap m x = true := by
  induction m with
  | nil => simp [isRowAnsweredMap, lookupAnswer]
  | cons p rest ih =>
    obtain ⟨k, v⟩ := p
    by_cases h : k = x
    · subst h; simp [isRowAnsweredMap, lookupAnswer]
    · simp [isRowAnsweredMap, lookupAnswer, h, Ne.symm h] at ih ⊢
      exact ih

theorem mem_getAnsweredRows (s : Session) (m : List (Int × AnswerRecord))
    (hm : s.answers = some m) (x : Int) :
    x ∈ getAnsweredRows s ↔ isRowAnsweredMap m x = true := by
  unfold getAnsweredRows
  rw [hm]
  show x ∈ sortInts (m.map Prod.fst) ↔ _
  rw [mem_sortInts, mem_keys_iff_answered]

/-- In an ascending-sorted list, the first element exceeding `c` is the least
element exceeding `c`. -/
theorem find_gt_sorted (c : Int) :
    ∀ l : List Int, l.Sorted (· ≤ ·) →
      ∀ v, l.find? (fun x => decide (c < x)) = some v →
      ∀ x ∈ l, c < x → v ≤ x := by
  intro l
  induction l with
  | nil => intro _ v h; simp at h
  | cons a rest ih =>
    intro hs v hfind x hx hcx
    rw [List.sorted_cons] at hs
    obtain ⟨ha, hrest⟩ := hs
    by_cases hca : c < a
    · rw [List.find?_cons_of_pos _ (by simpa using hca)] at hfind
      obtain rfl : a = v := by simpa using hfind
      rcases List.mem_cons.mp hx with rfl | hx'
      · exact le_refl _
      · exact ha x hx'
    · rw [List.find?_cons_of_neg _ (by simpa using hca)] at hfind
      rcases List.mem_cons.mp hx with rfl | hx'
      · omega
      · exact ih hrest v hfind x hx' hcx

/-- In a descending-sorted list, the first element below `c` is the greatest
element below `c`. -/
theorem find_lt_sorted_desc (c : Int) :
    ∀ l : List Int, l.Sorted (· ≥ ·) →
      ∀ v, l.find? (fun x => decide (x < c)) = some v →
      ∀ x ∈ l, x < c → x ≤ v := by
  intro l
  induction l with
  | nil => intro _ v h; simp at h
  | cons a rest ih =>
    intro hs v hfind x hx hcx
    rw [List.sorted_cons] at hs
    obtain ⟨ha, hrest⟩ := hs
    by_cases hca : a < c
    · rw [List.find?_cons_of_pos _ (by simpa using hca)] at hfind
      obtain rfl : a = v := by simpa using hfind
      rcases List.mem_cons.mp hx with rfl | hx'
      · exact le_refl _
      · exact ha x hx'
    · rw [List.find?_cons_of_neg _ (by simpa using hca)] at hfind
      rcases List.mem_cons.mp hx with rfl | hx'
      · omega
      · exact ih hrest v hfind x hx' hcx

theorem sorted_le_getLast :
    ∀ (l : List Int), l.Sorted (· ≤ ·) → ∀ (hne : l ≠ []), ∀ x ∈ l, x ≤ l.getLast hne := by
  intro l
  induction l with
  | nil => intro _ hne; exact absurd rfl hne
  | cons a rest ih =>
    intro h _ x hx
    rw [List.sorted_cons] at h
    obtain ⟨ha, hrest⟩ := h
    cases rest with
    | nil =>
      simp only [List.mem_singleton] at hx
      simp [hx]
    | cons b rest2 =>
      rw [List.getLast_cons (List.cons_ne_nil b rest2)]
      rcases List.mem_cons.mp hx with rfl | hx'
      · exact le_trans (ha b (by simp)) (ih hrest (List.cons_ne_nil b rest2) b (by simp))
      · exact ih hrest (List.cons_ne_nil b rest2) x hx'

theorem getNextAnsweredRow_nil (s : Session) (current d : Int)
    (hL : getAnsweredRows s = []) : getNextAnsweredRow s current d = none := by
  unfold getNextAnsweredRow
  rw [hL]

theorem getNextAnsweredRow_pos_eq (s : Session) (current : Int) (a : Int) (rest : List Int)
    (hL : getAnsweredRows s = a :: rest) :
    getNextAnsweredRow s current 1
      = (match (a :: rest).find? (fun idx => decide (current < idx)) with
         | some idx => some idx
         | none => some a) := by
  unfold getNextAnsweredRow
  rw [hL]
  simp

theorem getNextAnsweredRow_neg_eq (s : Session) (current : Int) (a : Int) (rest : List Int)
    (hL : getAnsweredRows s = a :: rest) :
    getNextAnsweredRow s current (-1)
      = (match (a :: rest).reverse.find? (fun idx => decide (idx < current)) with
         | some idx => some idx
         | none => some ((a :: rest).getLast (List.cons_ne_nil a rest))) := by
  unfold getNextAnsweredRow
  rw [hL]
  norm_num

theorem nextAnswered_pos_char (s : Session) (current v : Int)
    (hv : getNextAnsweredRow s current 1 = some v) :
    v ∈ getAnsweredRows s ∧
    ((current < v ∧ ∀ x ∈ getAnsweredRows s, current < x → v ≤ x) ∨
     ((∀ x ∈ getAnsweredRows s, x ≤ current) ∧ ∀ x ∈ getAnsweredRows s, v ≤ x)) := by
  rcases hL : getAnsweredRows s with _ | ⟨a, rest⟩
  · rw [getNextAnsweredRow_nil s current 1 hL] at hv
    exact absurd hv (by simp)
  · have hsort : (a :: rest).Sorted (· ≤ ·) := by
      rw [← hL]; exact getAnsweredRows_sorted s
    rw [getNextAnsweredRow_pos_eq s current a rest hL] at hv
    cases hfind : (a :: rest).find? (fun idx => decide (current < idx)) with
    | some i =>
      rw [hfind] at hv
      have hiv : i = v := by simpa using hv
      subst hiv
      refine ⟨List.mem_of_find?_eq_some hfind, Or.inl ⟨?_, ?_⟩⟩
      · have := List.find?_some hfind
        simpa using this
      · exact find_gt_sorted current (a :: rest) hsort _ hfind
    | none =>
      rw [hfind] at hv
      have hav : a = v := by simpa using hv
      subst hav
      have hnone := List.find?_eq_none.mp hfind
      refine ⟨by simp, Or.inr ⟨?_, ?_⟩⟩
      · intro x hx
        have := hnone x hx
        simp at this
        omega
      · intro x hx
        rcases List.mem_cons.mp hx with rfl | hx'
        · exact le_refl _
        · exact (List.sorted_cons.mp hsort).1 x hx'

theorem nextAnswered_neg_char (s : Session) (current v : Int)
    (hv : getNextAnsweredRow s current (-1) = some v) :
    v ∈ getAnsweredRows s ∧
    ((v < current ∧ ∀ x ∈ getAnsweredRows s, x < current → x ≤ v) ∨
     ((∀ x ∈ getAnsweredRows s, current ≤ x) ∧ ∀ x ∈ getAnsweredRows s, x ≤ v)) := by
  rcases hL : getAnsweredRows s with _ | ⟨a, rest⟩
  · rw [getNextAnsweredRow_nil s current (-1) hL] at hv
    exact absurd hv (by simp)
  · have hsort : (a :: rest).Sorted (· ≤ ·) := by
      rw [← hL]; exact getAnsweredRows_sorted s
    have hsortr : (a :: rest).reverse.Sorted (· ≥ ·) := by
      have hiff : (a :: rest).reverse.Pairwise (· ≥ ·) ↔ (a :: rest).Pairwise (· ≤ ·) := by
        rw [List.pairwise_reverse]
      exact hiff.mpr hsort
    rw [getNextAnsweredRow_neg_eq s current a rest hL] at hv
    cases hfind : (a :: rest).reverse.find? (fun idx => decide (idx < current)) with
    | some i =>
      rw [hfind] at hv
      have hiv : i = v := by simpa using hv
      subst hiv
      refine ⟨List.mem_reverse.mp (List.mem_of_find?_eq_some hfind), Or.inl ⟨?_, ?_⟩⟩
      · have := List.find?_some hfind
        simpa using this
      · intro x hx hxc
        exact find_lt_sorted_desc current _ hsortr _ hfind x (List.mem_reverse.mpr hx) hxc
    | none =>
      rw [hfind] at hv
      have hav : (a :: rest).getLast (List.cons_ne_nil a rest) = v := by simpa using hv
      have hnone := List.find?_eq_none.mp hfind
      constructor
      · rw [← hav]
        exact List.getLast_mem _
      refine Or.inr ⟨?_, ?_⟩
      · intro x hx
        have := hnone x (List.mem_reverse.mpr hx)
        simp at this
        omega
      · intro x hx
        rw [← hav]
        exact sorted_le_getLast (a :: rest) hsort (List.cons_ne_nil a rest) x hx

/-- **C5**: `get_next_answered_row` returns, for direction `+1`, the smallest
answered index strictly above `current`, else the smallest answered index
overall; for direction `-1`, the largest answered index strictly below
`current`, else the largest overall; and `None` exactly when the session has
no answered rows. -/
theorem next_answered_spec (s : Session) (m : List (Int × AnswerRecord)) (current : Int)
    (hm : s.answers = some m) :
    (∀ x : Int, x ∈ getAnsweredRows s ↔ isRowAnsweredMap m x = true) ∧
    (getAnsweredRows s = [] →
      getNextAnsweredRow s current 1 = none ∧ getNextAnsweredRow s current (-1) = none) ∧
    (getAnsweredRows s ≠ [] →
      (∃ v, getNextAnsweredRow s current 1 = some v) ∧
      (∃ v, getNextAnsweredRow s current (-1) = some v)) ∧
    (∀ v, getNextAnsweredRow s current 1 = some v →
      v ∈ getAnsweredRows s ∧
      ((current < v ∧ ∀ x ∈ getAnsweredRows s, current < x → v ≤ x) ∨
       ((∀ x ∈ getAnsweredRows s, x ≤ current) ∧ ∀ x ∈ getAnsweredRows s, v ≤ x))) ∧
    (∀ v, getNextAnsweredRow s current (-1) = some v →
      v ∈ getAnsweredRows s ∧
      ((v < current ∧ ∀ x ∈ getAnsweredRows s, x < current → x ≤ v) ∨
       ((∀ x ∈ getAnsweredRows s, current ≤ x) ∧ ∀ x ∈ getAnsweredRows s, x ≤ v))) := by
  refine ⟨mem_getAnsweredRows s m hm, ?_, ?_,
    fun v hv => nextAnswered_pos_char s current v hv,
    fun v hv => nextAnswered_neg_char s current v hv⟩
  · intro hL
    exact ⟨getNextAnsweredRow_nil s current 1 hL, getNextAnsweredRow_nil s current (-1) hL⟩
  · intro hne
    rcases hL : getAnsweredRows s with _ | ⟨a, rest⟩
    · exact absurd hL hne
    constructor
    · cases hfind : (a :: rest).find? (fun idx => decide (current < idx)) with
      | some i => exact ⟨i, by rw [getNextAnsweredRow_pos_eq s current a rest hL, hfind]⟩
      | none => exact ⟨a, by rw [getNextAnsweredRow_pos_eq s current a rest hL, hfind]⟩
    · cases hfind : (a :: rest).reverse.find? (fun idx => decide (idx < current)) with
      | some i => exact ⟨i, by rw [getNextAnsweredRow_neg_eq s current a rest hL, hfind]⟩
      | none =>
        exact ⟨(a :: rest).getLast (List.cons_ne_nil a rest),
          by rw [getNextAnsweredRow_neg_eq s current a rest hL, hfind]⟩

theorem next_answered_spec_witness :
    getNextAnsweredRow demoNav5 3 1 = some 4 ∧
    getNextAnsweredRow demoNav5 0 (-1) = some 4 ∧
    (4 ∈ getAnsweredRows demoNav5 ∧
      (((3 : Int) < 4 ∧ ∀ x ∈ getAnsweredRows demoNav5, 3 < x → 4 ≤ x) ∨
       ((∀ x ∈ getAnsweredRows demoNav5, x ≤ 3) ∧ ∀ x ∈ getAnsweredRows demoNav5, 4 ≤ x))) :=
  ⟨by decide, by decide, (next_answered_spec demoNav5 _ 3 rfl).2.2.2.1 4 (by decide)⟩

/-! ## C7: lookup by id with substring fallback -/

/-- **C7 counterexample**: with a single archive of id `"abc"`, the query
`"ion_a"` equals no archived id and is a substring of no archived id, yet
`load_session_by_id` returns the archive — the fallback matches against the
file stem `"session_abc"`, not against the id itself. -/
theorem find_by_id_substring_cex :
    loadSessionById [("abc", Except.ok demoSession)] "ion_a" = some demoSession ∧
    strContains "ion_a" "abc" = false ∧
    ("ion_a" = "abc") = False := by
  refine ⟨by decide, by decide, by simp⟩

theorem scanSubstr_none (q : String) :
    ∀ l : List (String × Except String Session),
      (∀ p ∈ l, strContains q (stemOf p.1) = false ∨ ∃ e, p.2 = Except.error e) →
      scanSubstr q l = none := by
  intro l
  induction l with
  | nil => intro _; rfl
  | cons p rest ih =>
    intro h
    obtain ⟨id, res⟩ := p
    have hrest := ih fun p hp => h p (List.mem_cons_of_mem _ hp)
    rcases h (id, res) (List.mem_cons_self _ _) with hc | ⟨e, he⟩
    · simp only [scanSubstr, hc]
      simpa using hrest
    · simp only at he
      subst he
      simp only [scanSubstr]
      split <;> exact hrest

theorem scanSubstr_first (q id : String) (s : Session) :
    ∀ (pre post : List (String × Except String Session)),
      strContains q (stemOf id) = true →
      (∀ p ∈ pre, strContains q (stemOf p.1) = false ∨ ∃ e, p.2 = Except.error e) →
      scanSubstr q (pre ++ (id, Except.ok s) :: post) = some s := by
  intro pre
  induction pre with
  | nil =>
    intro post hc _
    simp [scanSubstr, hc]
  | cons p rest ih =>
    intro post hc h
    obtain ⟨id2, res2⟩ := p
    have hrest := ih post hc fun p hp => h p (List.mem_cons_of_mem _ hp)
    rcases h (id2, res2) (List.mem_cons_self _ _) with hc2 | ⟨e, he⟩
    · simp only [List.cons_append, scanSubstr, hc2]
      simpa using hrest
    · simp only at he
      subst he
      simp only [List.cons_append, scanSubstr]
      split <;> exact hrest

/-- **C7 (amended)**: `load_session_by_id` returns the archive stored under an
id exactly equal to the query when one exists (and parses); otherwise it scans
the enumeration order and returns the first archive whose *file stem*
(`session_` + id) contains the query as a substring and whose contents parse,
skipping stem-matching archives that are malformed; when no stem matches (or
every stem-matching archive is malformed) it returns absent. -/
theorem find_by_id_amended (store : ArchiveStore) (q : String) :
    (∀ s, lookupArchive store q = some (Except.ok s) → loadSessionById store q = some s) ∧
    (lookupArchive store q = none →
      ((∀ p ∈ store, strContains q (stemOf p.1) = false ∨ ∃ e, p.2 = Except.error e) →
        loadSessionById store q = none) ∧
      (∀ (pre post : List (String × Except String Session)) (id : String) (s : Session),
        store = pre ++ (id, Except.ok s) :: post →
        strContains q (stemOf id) = true →
        (∀ p ∈ pre, strContains q (stemOf p.1) = false ∨ ∃ e, p.2 = Except.error e) →
        loadSessionById store q = some s)) := by
  refine ⟨?_, fun hnone => ⟨?_, ?_⟩⟩
  · intro s h
    unfold loadSessionById
    rw [h]
  · intro hall
    unfold loadSessionById
    rw [hnone]
    exact scanSubstr_none q store hall
  · intro pre post id s hstore hc hpre
    unfold loadSessionById
    rw [hnone, hstore]
    exact scanSubstr_first q id s pre post hc hpre

theorem find_by_id_amended_witness :
    loadSessionById [("xyz", Except.error "bad"), ("abcd", Except.ok demoSession)] "bcd"
      = some demoSession :=
  ((find_by_id_amended [("xyz", Except.error "bad"), ("abcd", Except.ok demoSession)]
      "bcd").2 rfl).2
    [("xyz", Except.error "bad")] [] "abcd" demoSession rfl (by decide)
    (fun p hp => by
      have hp' : p = ("xyz", Except.error "bad") := by simpa using hp
      rw [hp']
      exact Or.inl (by decide))

/-! ## C8: backward-compatible initialization of legacy sessions -/

theorem initLegacyFields_eq (s : Session) :
    initLegacyFields s = { s with
      answers := some (s.answers.getD [])
      answered_count := some (s.answered_count.getD ((s.answers.getD []).length : Int))
      correct_count := some (s.correct_count.getD (countCorrectI (s.answers.getD [])))
      incorrect_count := some (s.incorrect_count.getD (countIncorrectI (s.answers.getD []))) } := by
  obtain ⟨i, ca, ua, ds, ss, tq, ac, cc, ic, ans, bm, cr⟩ := s
  cases ans <;> cases ac <;> cases cc <;> cases ic <;> simp [initLegacyFields]

theorem initLegacyFields_idem (s : Session) :
    initLegacyFields (initLegacyFields s) = initLegacyFields s := by
  rw [initLegacyFields_eq s, initLegacyFields_eq]
  simp

/-- **C8**: on a legacy session missing `answers` and/or any count field,
`record_answer_allow_change` first fills them in — `answers` becomes empty if
absent, and each absent count is derived from the answers that already exist
(`answered_count = |answers|`, `correct_count`/`incorrect_count` = number of
records with `is_correct` true/false) — and only then applies the new record
and count adjustments (the whole call equals the call on the initialized
session). -/
theorem legacy_init_derives_counts (s : Session) :
    ((initLegacyFields s).answers = some (s.answers.getD [])) ∧
    (s.answered_count = none →
      (initLegacyFields s).answered_count = some ((s.answers.getD []).length : Int)) ∧
    (s.correct_count = none →
      (initLegacyFields s).correct_count = some (countCorrectI (s.answers.getD []))) ∧
    (s.incorrect_count = none →
      (initLegacyFields s).incorrect_count = some (countIncorrectI (s.answers.getD []))) ∧
    (∀ (now : String) (r : Int) (q ua ca : String) (b : Bool) (qo : String) (w p : Bool),
      recordAnswerAllowChange now s r q ua ca b qo w p
        = recordAnswerAllowChange now (initLegacyFields s) r q ua ca b qo w p) := by
  refine ⟨?_, ?_, ?_, ?_, ?_⟩
  · rw [initLegacyFields_eq]
  · intro h
    rw [initLegacyFields_eq]
    simp [h]
  · intro h
    rw [initLegacyFields_eq]
    simp [h]
  · intro h
    rw [initLegacyFields_eq]
    simp [h]
  · intro now r q ua ca b qo w p
    unfold recordAnswerAllowChange
    rw [initLegacyFields_idem]

theorem legacy_init_derives_counts_witness :
    (initLegacyFields demoLegacy).answered_count = some 2 ∧
    (initLegacyFields demoLegacy).correct_count = some 1 ∧
    (initLegacyFields demoLegacy).incorrect_count = some 1 := by
  refine ⟨?_, ?_, ?_⟩
  · rw [(legacy_init_derives_counts demoLegacy).2.1 rfl]
    decide
  · rw [(legacy_init_derives_counts demoLegacy).2.2.1 rfl]
    decide
  · rw [(legacy_init_derives_counts demoLegacy).2.2.2.1 rfl]
    decide

/-! ## C1: the count invariant under AnswerRecorder calls -/

theorem countCorrectI_cons (p : Int × AnswerRecord) (m : List (Int × AnswerRecord)) :
    countCorrectI (p :: m) = (if p.2.is_correct then 1 else 0) + countCorrectI m := by
  by_cases h : p.2.is_correct <;> simp [countCorrectI, List.filter_cons, h]
  all_goals omega

theorem countIncorrectI_cons (p : Int × AnswerRecord) (m : List (Int × AnswerRecord)) :
    countIncorrectI (p :: m) = (if p.2.is_correct then 0 else 1) + countIncorrectI m := by
  by_cases h : p.2.is_correct <;> simp [countIncorrectI, List.filter_cons, h]
  all_goals omega

theorem lookupAnswer_none_insertKV (m : List (Int × AnswerRecord)) (r : Int)
    (v : AnswerRecord) (h : lookupAnswer m r = none) :
    insertKV m r v = m ++ [(r, v)] := by
  induction m with
  | nil => rfl
  | cons p rest ih =>
    obtain ⟨k, w⟩ := p
    rw [lookupAnswer] at h
    by_cases hk : k = r
    · rw [if_pos hk] at h
      exact absurd h (by simp)
    · rw [if_neg hk] at h
      simp [insertKV, hk, ih h]

theorem length_insertKV_some (m : List (Int × AnswerRecord)) (r : Int)
    (v w : AnswerRecord) (h : lookupAnswer m r = some w) :
    (insertKV m r v).length = m.length := by
  induction m with
  | nil => simp [lookupAnswer] at h
  | cons p rest ih =>
    obtain ⟨k, w2⟩ := p
    rw [lookupAnswer] at h
    by_cases hk : k = r
    · simp [insertKV, hk]
    · rw [if_neg hk] at h
      simp [insertKV, hk, ih h]

theorem countCorrectI_insertKV_some (m : List (Int × AnswerRecord)) (r : Int)
    (v w : AnswerRecord) (h : lookupAnswer m r = some w) :
    countCorrectI (insertKV m r v)
      = countCorrectI m - (if w.is_correct then 1 else 0)
        + (if v.is_correct then 1 else 0) := by
  induction m with
  | nil => simp [lookupAnswer] at h
  | cons p rest ih =>
    obtain ⟨k, w2⟩ := p
    rw [lookupAnswer] at h
    by_cases hk : k = r
    · rw [if_pos hk] at h
      have hw : w2 = w := by simpa using h
      subst hw
      rw [insertKV, if_pos hk]
      rw [countCorrectI_cons, countCorrectI_cons]
      ring
    · rw [if_neg hk] at h
      rw [insertKV, if_neg hk]
      show countCorrectI ((k, w2) :: insertKV rest r v) = _
      rw [countCorrectI_cons, countCorrectI_cons, ih h]
      ring

theorem countIncorrectI_insertKV_some (m : List (Int × AnswerRecord)) (r : Int)
    (v w : AnswerRecord) (h : lookupAnswer m r = some w) :
    countIncorrectI (insertKV m r v)
      = countIncorrectI m - (if w.is_correct then 0 else 1)
        + (if v.is_correct then 0 else 1) := by
  induction m with
  | nil => simp [lookupAnswer] at h
  | cons p rest ih =>
    obtain ⟨k, w2⟩ := p
    rw [lookupAnswer] at h
    by_cases hk : k = r
    · rw [if_pos hk] at h
      have hw : w2 = w := by simpa using h
      subst hw
      rw [insertKV, if_pos hk]
      rw [countIncorrectI_cons, countIncorrectI_cons]
      ring
    · rw [if_neg hk] at h
      rw [insertKV, if_neg hk]
      show countIncorrectI ((k, w2) :: insertKV rest r v) = _
      rw [countIncorrectI_cons, countIncorrectI_cons, ih h]
      ring

theorem countCorrectI_pos_of_lookup (m : List (Int × AnswerRecord)) (r : Int)
    (w : AnswerRecord) (h : lookupAnswer m r = some w) (hw : w.is_correct = true) :
    1 ≤ countCorrectI m := by
  induction m with
  | nil => simp [lookupAnswer] at h
  | cons p rest ih =>
    obtain ⟨k, w2⟩ := p
    rw [lookupAnswer] at h
    rw [countCorrectI_cons]
    have hnn := countCorrectI_nonneg rest
    by_cases hk : k = r
    · rw [if_pos hk] at h
      have hw2 : w2 = w := by simpa using h
      subst hw2
      simp [hw]
      omega
    · rw [if_neg hk] at h
      have := ih h
      by_cases h2 : w2.is_correct <;> simp [h2] <;> omega

theorem countIncorrectI_pos_of_lookup (m : List (Int × AnswerRecord)) (r : Int)
    (w : AnswerRecord) (h : lookupAnswer m r = some w) (hw : w.is_correct = false) :
    1 ≤ countIncorrectI m := by
  induction m with
  | nil => simp [lookupAnswer] at h
  | cons p rest ih =>
    obtain ⟨k, w2⟩ := p
    rw [lookupAnswer] at h
    rw [countIncorrectI_cons]
    have hnn := countIncorrectI_nonneg rest
    by_cases hk : k = r
    · rw [if_pos hk] at h
      have hw2 : w2 = w := by simpa using h
      subst hw2
      simp [hw]
      omega
    · rw [if_neg hk] at h
      have := ih h
      by_cases h2 : w2.is_correct <;> simp [h2] <;> omega

theorem recordAnswer_eq_true (now : String) (s : Session) (m : List (Int × AnswerRecord))
    (r : Int) (q ua ca qo : String) (c : Int)
    (hm : s.answers = some m) (hans : isRowAnsweredMap m r = false)
    (hcc : s.correct_count = some c) :
    recordAnswer now s r q ua ca true qo =
      some ({ s with
        updated_at := now
        answers := some (m ++ [(r, mkRecord now q ua ca true qo)])
        answered_count := some (((m ++ [(r, mkRecord now q ua ca true qo)]).length : Int))
        correct_count := some (c + 1) }, true) := by
  simp [recordAnswer, hm, hans, hcc, saveCurrentSession, mkRecord]

theorem recordAnswer_eq_false (now : String) (s : Session) (m : List (Int × AnswerRecord))
    (r : Int) (q ua ca qo : String) (c : Int)
    (hm : s.answers = some m) (hans : isRowAnsweredMap m r = false)
    (hic : s.incorrect_count = some c) :
    recordAnswer now s r q ua ca false qo =
      some ({ s with
        updated_at := now
        answers := some (m ++ [(r, mkRecord now q ua ca false qo)])
        answered_count := some (((m ++ [(r, mkRecord now q ua ca false qo)]).length : Int))
        incorrect_count := some (c + 1) }, true) := by
  simp [recordAnswer, hm, hans, hic, saveCurrentSession, mkRecord]

theorem recordAnswer_preserves (now : String) (s : Session) (r : Int)
    (q ua ca : String) (b : Bool) (qo : String) (s1 : Session) (persisted : Bool)
    (hinv : CountsInv s)
    (hcall : recordAnswer now s r q ua ca b qo = some (s1, persisted)) :
    CountsInv s1 := by
  obtain ⟨m, hm, hac, hcc, hic⟩ := hinv
  by_cases hans : isRowAnsweredMap m r = true
  · rw [recordAnswer_noop now s m r q ua ca b qo hm hans] at hcall
    simp only [Option.some.injEq, Prod.mk.injEq] at hcall
    obtain ⟨h1, -⟩ := hcall
    subst h1
    exact ⟨m, hm, hac, hcc, hic⟩
  · have hans' : isRowAnsweredMap m r = false := by simpa using hans
    cases b with
    | true =>
      rw [recordAnswer_eq_true now s m r q ua ca qo (countCorrectI m) hm hans' hcc] at hcall
      simp only [Option.some.injEq, Prod.mk.injEq] at hcall
      obtain ⟨h1, -⟩ := hcall
      subst h1
      refine ⟨m ++ [(r, mkRecord now q ua ca true qo)], rfl, rfl, ?_, ?_⟩
      · show some (countCorrectI m + 1) = _
        rw [countCorrectI_append, countCorrectI_single]
        simp [mkRecord]
      · show s.incorrect_count = _
        rw [countIncorrectI_append, countIncorrectI_single, hic]
        simp [mkRecord]
    | false =>
      rw [recordAnswer_eq_false now s m r q ua ca qo (countIncorrectI m) hm hans' hic] at hcall
      simp only [Option.some.injEq, Prod.mk.injEq] at hcall
      obtain ⟨h1, -⟩ := hcall
      subst h1
      refine ⟨m ++ [(r, mkRecord now q ua ca false qo)], rfl, rfl, ?_, ?_⟩
      · show s.correct_count = _
        rw [countCorrectI_append, countCorrectI_single, hcc]
        simp [mkRecord]
      · show some (countIncorrectI m + 1) = _
        rw [countIncorrectI_append, countIncorrectI_single]
        simp [mkRecord]

theorem initLegacyFields_of_inv (s : Session) (m : List (Int × AnswerRecord))
    (hm : s.answers = some m)
    (hac : s.answered_count = some ((m.length : Int)))
    (hcc : s.correct_count = some (countCorrectI m))
    (hic : s.incorrect_count = some (countIncorrectI m)) :
    initLegacyFields s = s := by
  rw [initLegacyFields_eq]
  rw [hm, hac, hcc, hic]
  simp only [Option.getD_some]
  rw [← hm, ← hac, ← hcc, ← hic]

theorem recordAnswerAllowChange_preserves (now : String) (s : Session) (r : Int)
    (q ua ca : String) (b : Bool) (qo : String) (hinv : CountsInv s) :
    CountsInv (recordAnswerAllowChange now s r q ua ca b qo
      (isAnsweredB s r) (prevCorrectOf s r)) := by
  obtain ⟨m, hm, hac, hcc, hic⟩ := hinv
  have hinit := initLegacyFields_of_inv s m hm hac hcc hic
  rcases hlook : lookupAnswer m r with _ | w
  · have hwb : isAnsweredB s r = false := by
      simp [isAnsweredB, hm, isRowAnsweredMap, hlook]
    have hins : insertKV m r (mkRecord now q ua ca b qo)
        = m ++ [(r, mkRecord now q ua ca b qo)] :=
      lookupAnswer_none_insertKV m r _ hlook
    simp only [mkRecord] at hins
    rw [hwb]
    have heq : recordAnswerAllowChange now s r q ua ca b qo false (prevCorrectOf s r)
        = { s with
            updated_at := now
            answers := some (m ++ [(r, mkRecord now q ua ca b qo)])
            answered_count := some (((m ++ [(r, mkRecord now q ua ca b qo)]).length : Int))
            correct_count :=
              if b then some (countCorrectI m + 1) else some (countCorrectI m)
            incorrect_count :=
              if b then some (countIncorrectI m) else some (countIncorrectI m + 1) } := by
      cases b <;>
        simp [recordAnswerAllowChange, hinit, hm, hins, hcc, hic, saveCurrentSession, mkRecord]
    rw [heq]
    refine ⟨m ++ [(r, mkRecord now q ua ca b qo)], rfl, rfl, ?_, ?_⟩
    · show (if b then some (countCorrectI m + 1) else some (countCorrectI m)) = _
      rw [countCorrectI_append, countCorrectI_single]
      cases b <;> simp [mkRecord]
    · show (if b then some (countIncorrectI m) else some (countIncorrectI m + 1)) = _
      rw [countIncorrectI_append, countIncorrectI_single]
      cases b <;> simp [mkRecord]
  · have hwb : isAnsweredB s r = true := by
      simp [isAnsweredB, hm, isRowAnsweredMap, hlook]
    have hpc : prevCorrectOf s r = w.is_correct := by
      simp [prevCorrectOf, hm, hlook]
    rw [hwb, hpc]
    cases hwc : w.is_correct with
    | false =>
      have hpos := countIncorrectI_pos_of_lookup m r w hlook hwc
      have hmax : max 0 (countIncorrectI m - 1) = countIncorrectI m - 1 := by omega
      have heq : recordAnswerAllowChange now s r q ua ca b qo true false
          = { s with
              updated_at := now
              answers := some (insertKV m r (mkRecord now q ua ca b qo))
              answered_count := some (((insertKV m r (mkRecord now q ua ca b qo)).length : Int))
              correct_count :=
                if b then some (countCorrectI m + 1) else some (countCorrectI m)
              incorrect_count :=
                if b then some (countIncorrectI m - 1)
                else some (countIncorrectI m - 1 + 1) } := by
        cases b <;>
          simp [recordAnswerAllowChange, hinit, hm, hcc, hic, saveCurrentSession, mkRecord, hmax]
      rw [heq]
      refine ⟨insertKV m r (mkRecord now q ua ca b qo), rfl, rfl, ?_, ?_⟩
      · show (if b then some (countCorrectI m + 1) else some (countCorrectI m)) = _
        rw [countCorrectI_insertKV_some m r _ w hlook]
        cases b <;> simp [mkRecord, hwc]
      · show (if b then some (countIncorrectI m - 1) else some (countIncorrectI m - 1 + 1)) = _
        rw [countIncorrectI_insertKV_some m r _ w hlook]
        cases b <;> simp [mkRecord, hwc]
    | true =>
      have hpos := countCorrectI_pos_of_lookup m r w hlook hwc
      have hmax : max 0 (countCorrectI m - 1) = countCorrectI m - 1 := by omega
      have heq : recordAnswerAllowChange now s r q ua ca b qo true true
          = { s with
              updated_at := now
              answers := some (insertKV m r (mkRecord now q ua ca b qo))
              answered_count := some (((insertKV m r (mkRecord now q ua ca b qo)).length : Int))
              correct_count :=
                if b then some (countCorrectI m - 1 + 1)
                else some (countCorrectI m - 1)
              incorrect_count :=
                if b then some (countIncorrectI m) else some (countIncorrectI m + 1) } := by
        cases b <;>
          simp [recordAnswerAllowChange, hinit, hm, hcc, hic, saveCurrentSession, mkRecord, hmax]
      rw [heq]
      refine ⟨insertKV m r (mkRecord now q ua ca b qo), rfl, rfl, ?_, ?_⟩
      · show (if b then some (countCorrectI m - 1 + 1) else some (countCorrectI m - 1)) = _
        rw [countCorrectI_insertKV_some m r _ w hlook]
        cases b <;> simp [mkRecord, hwc]
      · show (if b then some (countIncorrectI m) else some (countIncorrectI m + 1)) = _
        rw [countIncorrectI_insertKV_some m r _ w hlook]
        cases b <;> simp [mkRecord, hwc]

theorem reach_counts_inv : ∀ s : Session, ReachAccurate s → CountsInv s := by
  intro s h
  induction h with
  | created nowId nowIso dataset split => exact ⟨[], rfl, rfl, rfl, rfl⟩
  | recorded s s1 persisted now r q ua ca qo b _ hcall ih =>
    exact recordAnswer_preserves now s r q ua ca b qo s1 persisted ih hcall
  | changed s now r q ua ca qo b _ ih =>
    exact recordAnswerAllowChange_preserves now s r q ua ca b qo ih

/-- **C1 counterexample**: the invariant fails when
`record_answer_allow_change` is called with inaccurate arguments.  Starting
from an empty session, record row 0 (correct), then record the *fresh* row 1
with `was_answered=True, previous_correct=True`: the spurious decrement makes
`answered_count = 2` while `correct_count + incorrect_count = 1`. -/
theorem recorder_counts_invariant_cex :
    ((recordAnswer "t1" (createEmptySession "d0" "d0i" "ds" "sp") 0 "q" "A" "A" true "").map
      (fun pr =>
        let s2 := recordAnswerAllowChange "t2" pr.1 1 "q" "B" "B" true "" true true
        (s2.answered_count, s2.correct_count, s2.incorrect_count)))
      = some (some 2, some 1, some 0) := by
  decide

/-- **C1 (amended)**: for every session reachable from `create_empty_session`
through `record_answer` and `record_answer_allow_change`, the latter called
with accurate arguments (`was_answered` true iff the row is in `answers`, and
`previous_correct` the stored record's `is_correct`), the counts are present
and satisfy `answered_count == correct_count + incorrect_count == |answers|`
after every call, including repeated changes to the same row. -/
theorem recorder_counts_invariant (s : Session) (h : ReachAccurate s) :
    ∃ (m : List (Int × AnswerRecord)) (c i : Int),
      s.answers = some m ∧ s.correct_count = some c ∧ s.incorrect_count = some i ∧
      s.answered_count = some (c + i) ∧ c + i = (m.length : Int) := by
  obtain ⟨m, hm, hac, hcc, hic⟩ := reach_counts_inv s h
  refine ⟨m, countCorrectI m, countIncorrectI m, hm, hcc, hic, ?_, ?_⟩
  · rw [hac, countCorrectI_add_countIncorrectI]
  · exact countCorrectI_add_countIncorrectI m

theorem recorder_counts_invariant_witness :
    ∃ (m : List (Int × AnswerRecord)) (c i : Int),
      demoReach2.answers = some m ∧ demoReach2.correct_count = some c ∧
      demoReach2.incorrect_count = some i ∧ demoReach2.answered_count = some (c + i) ∧
      c + i = (m.length : Int) :=
  recorder_counts_invariant demoReach2
    (ReachAccurate.changed demoReach1 "t2" 0 "q" "B" "A" "" false
      (ReachAccurate.changed demoReach0 "t1" 0 "q" "A" "A" "" true
        (ReachAccurate.created "d0" "d0i" "ds" "sp")))
